import Mathlib

/-!
Verification of the react-express client core (state store, virtual DOM
renderer, DOM binding layer, HMR pipeline) against its specification.
The definitions below are shallow embeddings of the JavaScript sources in
`src/client/hooks.js`, `src/client/vdom.js` and `src/client/hmr.js`.
-/

namespace ReactExpress

/-! ## JavaScript value model

Dynamic values flowing through the state store.  Arrays appear in the store
only as checkbox-group values (arrays of the checked elements' `value`
strings), so the array arm carries a list of strings. -/

inductive JSValue where
  | undefV
  | nullv
  | boolV (b : Bool)
  | num (n : Int)
  | str (s : String)
  | strArr (xs : List String)
deriving Repr, DecidableEq

/-- JS truthiness (`!!value`) for the values of this model. -/
def jsTruthy : JSValue → Bool
  | .undefV => false
  | .nullv => false
  | .boolV b => b
  | .num n => n != 0
  | .str s => s != ""
  | .strArr _ => true

/-- The `x ?? ''` coalescing used when writing a display value to the DOM. -/
def coalesce (v : JSValue) : JSValue :=
  match v with
  | .undefV => .str ""
  | .nullv => .str ""
  | v => v

/-! ## Association-list helpers

JS `Map` objects preserve insertion order; `set` on an existing key updates
the entry in place, otherwise appends. -/

def alGet {κ α : Type} [DecidableEq κ] : List (κ × α) → κ → Option α
  | [], _ => none
  | (k2, v) :: t, k => if k2 = k then some v else alGet t k

def alSet {κ α : Type} [DecidableEq κ] : List (κ × α) → κ → α → List (κ × α)
  | [], k, v => [(k, v)]
  | (k2, v2) :: t, k, v => if k2 = k then (k2, v) :: t else (k2, v2) :: alSet t k v

def alRemove {κ α : Type} [DecidableEq κ] : List (κ × α) → κ → List (κ × α)
  | [], _ => []
  | (k2, v) :: t, k => if k2 = k then alRemove t k else (k2, v) :: alRemove t k

/-- JS `Set.add`: insertion-ordered, no duplicates. -/
def setAdd (l : List Nat) (e : Nat) : List Nat :=
  if e ∈ l then l else l ++ [e]

theorem alGet_alSet_same {κ α : Type} [DecidableEq κ] (l : List (κ × α)) (k : κ) (v : α) :
    alGet (alSet l k v) k = some v := by
  induction l with
  | nil => simp [alSet, alGet]
  | cons hd t ih =>
    obtain ⟨a, b⟩ := hd
    by_cases hk : a = k
    · simp [alSet, alGet, hk]
    · simp [alSet, alGet, hk, ih]

theorem alGet_alSet_other {κ α : Type} [DecidableEq κ] (l : List (κ × α)) (k k2 : κ) (v : α)
    (h : k2 ≠ k) : alGet (alSet l k v) k2 = alGet l k2 := by
  have hne : ¬ (k = k2) := fun h2 => h h2.symm
  induction l with
  | nil => simp [alSet, alGet, hne]
  | cons hd t ih =>
    obtain ⟨a, b⟩ := hd
    by_cases hk : a = k
    · subst hk
      simp [alSet, alGet, hne]
    · simp [alSet, alGet, hk, ih]

/-! ## Formatter resolution (`ComponentManager._resolveFormatter`)

`_resolveFormatter` receives either a function value or a string.  Strings
are resolved against (a) the global formatter registry, (b) a global
function of that name, (c) an inline `js:`-prefixed expression compiled
with `new Function` (which may throw, caught and logged).  Functions are
represented by opaque ids; `jsCompile` returns `none` when `new Function`
throws a `SyntaxError`; `apply` gives each function id its semantics. -/

/-- `String.startsWith`, phrased over the character lists so that concrete
instances reduce inside the kernel. -/
def strStartsWith (s pre : String) : Bool := pre.data.isPrefixOf s.data

structure FmtEnv where
  registry : List (String × Nat)
  globals : List (String × Nat)
  jsCompile : String → Option Nat
  apply : Nat → JSValue → JSValue

inductive FmtArg where
  | fnArg (id : Nat)
  | strArg (s : String)
deriving Repr, DecidableEq

/-- Embeds `_resolveFormatter` (hooks.js).  Returns the resolved function id
(or `none` for the `return null` paths) paired with whether
`console.error('Invalid formatter', ...)` ran, which happens only in the
`catch` branch, i.e. when `new Function` throws on a `js:` expression. -/
def resolveFormatter (env : FmtEnv) (f : FmtArg) : Option Nat × Bool :=
  match f with
  | .fnArg id => (some id, false)
  | .strArg s =>
    match alGet env.registry s with
    | some id => (some id, false)
    | none =>
      match alGet env.globals s with
      | some id => (some id, false)
      | none =>
        if strStartsWith s "js:" then
          match env.jsCompile (s.drop 3) with
          | some id => (some id, false)
          | none => (none, true)
        else
          (none, false)

/-! ## Document and store model (`ComponentManager`, hooks.js)

A `DocElem` models one DOM element as the binding layer sees it:
`stateKey` is the `data-react-state` attribute, `fmtAttr` the value of
`data-format` (falling back to `data-type`), `bound` the
`__reactExpressBound` expando flag, `listeners` the number of input/change
listeners attached to it, and `content` the value it currently displays
(text content for ordinary elements, the `value` property for form
controls). -/

structure DocElem where
  id : Nat
  tagName : String
  typeAttr : String
  stateKey : Option String
  fmtAttr : Option String
  hasValueAttr : Bool
  valueProp : String
  checked : Bool
  bound : Bool
  listeners : Nat
  content : JSValue
deriving Repr, DecidableEq

/-- One entry of `ComponentManager.stateBindings`: `value`, `prev`, the
insertion-ordered `Set` of bound element ids, and the element → resolved
formatter map. -/
structure Binding where
  value : JSValue
  prev : JSValue
  elements : List Nat
  formatters : List (Nat × Nat)
deriving Repr, DecidableEq

/-- The manager state: the `stateBindings` map, the live document, and the
log of `CustomEvent(key, {detail: {value, previous}})` dispatches on the
event bus, in order. -/
structure Store where
  stateBindings : List (String × Binding)
  doc : List DocElem
  events : List (String × JSValue × JSValue)
deriving Repr, DecidableEq

def emptyStore : Store := ⟨[], [], []⟩

/-- Apply a function to the document element with the given id. -/
def updDocElem (doc : List DocElem) (i : Nat) (f : DocElem → DocElem) : List DocElem :=
  doc.map (fun e => if e.id = i then f e else e)

/-- Formatter application step of `_updateElement`:
`formatter ? formatter(value) : value`. -/
def displayOf (env : FmtEnv) (fmt : Option Nat) (v : JSValue) : JSValue :=
  match fmt with
  | some f => env.apply f v
  | none => v

/-- Embeds `_updateElement` (hooks.js).  Checkbox inputs get their `checked`
property from the raw value (array membership of the element's `value`, or
truthiness); radios are left alone; other form controls receive
`displayValue ?? ''` as their value; ordinary elements display the value
through the renderer (content field).  The source wraps this body in a
try/catch; the embedding is total so no failure arm is needed. -/
def updateElement (env : FmtEnv) (el : DocElem) (v : JSValue) (fmt : Option Nat) : DocElem :=
  let displayValue := displayOf env fmt v
  if el.tagName == "INPUT" && el.typeAttr == "checkbox" then
    match v with
    | .strArr xs => { el with checked := xs.contains el.valueProp }
    | _ => { el with checked := jsTruthy v }
  else if el.tagName == "INPUT" && el.typeAttr == "radio" then
    el
  else
    { el with content := coalesce displayValue }

/-- Embeds `_updateBoundElements` given the binding (its callers have just
looked it up). -/
def updateBoundElements (env : FmtEnv) (doc : List DocElem) (b : Binding) : List DocElem :=
  b.elements.foldl
    (fun d i => updDocElem d i (fun e => updateElement env e b.value (alGet b.formatters i)))
    doc

/-- Embeds `_setBindingValue` (hooks.js): store `prev`, assign `value`,
update every bound element, dispatch the change event.  Returns `none` when
the binding does not exist (the source would throw a `TypeError` reading
`binding.value`). -/
def setBindingValue (env : FmtEnv) (s : Store) (key : String) (v : JSValue) : Option Store :=
  match alGet s.stateBindings key with
  | none => none
  | some b =>
    let prev := b.value
    let b2 : Binding := { b with prev := prev, value := v }
    let s2 : Store := { s with stateBindings := alSet s.stateBindings key b2 }
    let s3 : Store := { s2 with doc := updateBoundElements env s2.doc b2 }
    some { s3 with events := s3.events ++ [(key, v, prev)] }

/-! ## Scanning and binding (`_scanForStateBindings`, `hooks.bindState`) -/

/-- The body of the `forEach` in `_scanForStateBindings`, for the matched
element with id `i`.  New elements are added to the binding's element set,
their `data-format`/`data-type` attribute is resolved, and form controls
that are not yet `__reactExpressBound` get exactly one input/change
listener attached. -/
def scanOne (env : FmtEnv) (key : String) (st : Store) (i : Nat) : Store :=
  match alGet st.stateBindings key, st.doc.find? (fun e => e.id = i) with
  | some b, some el =>
    if i ∈ b.elements then st
    else
      let b2 : Binding := { b with elements := b.elements ++ [i] }
      let b3 : Binding :=
        match el.fmtAttr with
        | some f =>
          match (resolveFormatter env (.strArg f)).1 with
          | some fid => { b2 with formatters := alSet b2.formatters i fid }
          | none => b2
        | none => b2
      let st2 : Store := { st with stateBindings := alSet st.stateBindings key b3 }
      if el.bound then st2
      else if el.tagName == "INPUT" || el.tagName == "TEXTAREA" || el.tagName == "SELECT" then
        let d2 :=
          updDocElem st2.doc i (fun e => { e with listeners := e.listeners + 1, bound := true })
        { st2 with doc := d2 }
      else st2
  | _, _ => st

/-- Embeds `_scanForStateBindings`: iterate over the document elements whose
`data-react-state` attribute equals `key`, in document order. -/
def scanForStateBindings (env : FmtEnv) (s : Store) (key : String) : Store :=
  ((s.doc.filter (fun e => e.stateKey = some key)).map (fun e => e.id)).foldl
    (scanOne env key) s

/-- Embeds `hooks.useState`: the first call for a key creates its binding
seeded with `initialValue` and scans the document; later calls leave the
store unchanged (the accessors are `getState`/`setStateFn` below). -/
def useState (env : FmtEnv) (s : Store) (key : String) (initial : JSValue) : Store :=
  if (alGet s.stateBindings key).isSome then s
  else
    let s2 : Store :=
      { s with stateBindings := alSet s.stateBindings key ⟨initial, .undefV, [], []⟩ }
    scanForStateBindings env s2 key

/-- The `getState` accessor returned by `useState` (reads the live binding). -/
def getState (s : Store) (key : String) : JSValue :=
  match alGet s.stateBindings key with
  | some b => b.value
  | none => .undefV

/-- The `setState` accessor returned by `useState`, applied to a functional
updater: `typeof newValue === 'function'` so the next value is
`newValue(binding.value)`. -/
def setStateFn (env : FmtEnv) (s : Store) (key : String) (f : JSValue → JSValue) :
    Option Store :=
  match alGet s.stateBindings key with
  | none => none
  | some b => setBindingValue env s key (f b.value)

/-- Embeds `hooks.bindState`: lazily create the binding, `Set.add` the
element, resolve and record the formatter when given, and update the
element immediately unless the binding value is still `undefined`
(preserving server-rendered content). -/
def bindState (env : FmtEnv) (s : Store) (key : String) (elId : Nat) (fmt : Option FmtArg) :
    Store :=
  let s1 : Store :=
    if (alGet s.stateBindings key).isSome then s
    else { s with stateBindings := alSet s.stateBindings key ⟨.undefV, .undefV, [], []⟩ }
  match alGet s1.stateBindings key with
  | none => s1
  | some b =>
    let b2 : Binding := { b with elements := setAdd b.elements elId }
    let b3 : Binding :=
      match fmt with
      | some f =>
        match (resolveFormatter env f).1 with
        | some fid => { b2 with formatters := alSet b2.formatters elId fid }
        | none => b2
      | none => b2
    let s2 : Store := { s1 with stateBindings := alSet s1.stateBindings key b3 }
    if b3.value != .undefV then
      let d2 :=
        updDocElem s2.doc elId (fun e => updateElement env e b3.value (alGet b3.formatters elId))
      { s2 with doc := d2 }
    else s2

/-- Embeds the unbind closure returned by `bindState`: delete the element
from the binding's element set and formatter map. -/
def unbindState (s : Store) (key : String) (elId : Nat) : Store :=
  match alGet s.stateBindings key with
  | none => s
  | some b =>
    let b2 : Binding :=
      { b with elements := b.elements.filter (fun e => e ≠ elId),
               formatters := alRemove b.formatters elId }
    { s with stateBindings := alSet s.stateBindings key b2 }

/-! ## Two-way input handler (`_scanForStateBindings` listener closure) -/

/-- The checkboxes matched by
`document.querySelectorAll('input[type="checkbox"][data-react-state=key]')`. -/
def checkboxesFor (doc : List DocElem) (key : String) : List DocElem :=
  doc.filter (fun e =>
    e.tagName == "INPUT" && e.typeAttr == "checkbox" && e.stateKey == some key)

/-- The value the input/change listener passes to `_setBindingValue`.  A
checkbox is a group exactly when more than one checkbox shares the key or
the element has an explicit `value` attribute; a group binds the array of
checked values, a lone bare checkbox binds `element.checked`.  Radios bind
the checked member's value (or null), everything else binds
`element.value`. -/
def changeHandlerValue (doc : List DocElem) (key : String) (el : DocElem) : JSValue :=
  if el.typeAttr == "checkbox" then
    let checkboxes := checkboxesFor doc key
    let isGroup := decide (checkboxes.length > 1) || el.hasValueAttr
    if isGroup then
      .strArr ((checkboxes.filter (fun e => e.checked)).map (fun e => e.valueProp))
    else
      .boolV el.checked
  else if el.typeAttr == "radio" then
    match doc.find? (fun e =>
        e.tagName == "INPUT" && e.typeAttr == "radio" && e.stateKey == some key && e.checked) with
    | some sel => .str sel.valueProp
    | none => .nullv
  else
    .str el.valueProp

/-- Fire the input/change listener of element `elId` for `key` (the user has
already changed the control's state). -/
def fireChange (env : FmtEnv) (s : Store) (key : String) (elId : Nat) : Option Store :=
  match s.doc.find? (fun e => e.id = elId) with
  | none => some s
  | some el => setBindingValue env s key (changeHandlerValue s.doc key el)

/-- A user interaction toggling a checkbox (before its change event fires). -/
def setChecked (s : Store) (elId : Nat) (b : Bool) : Store :=
  { s with doc := updDocElem s.doc elId (fun e => { e with checked := b }) }

/-! ## Virtual DOM (`src/client/vdom.js`, batched renderer)

Attribute values are JS primitives plus objects compared by identity
(functions used as event handlers, style objects); identity is modelled by
an id.  A vnode is a string, a number, a raw-HTML object, or an element
object whose `props` map holds the attributes and, under the `children`
key, the child list installed by `createElement`. -/

inductive Attr where
  | strA (s : String)
  | numA (n : Int)
  | boolA (b : Bool)
  | handler (id : Nat)
  | styleObj (id : Nat) (kvs : List (String × String))
deriving Repr, DecidableEq

mutual
inductive VNode where
  | textS (s : String)
  | textN (n : Int)
  | rawNode (html : String)
  | obj (ty : String) (props : List (String × PropValue))

inductive PropValue where
  | attr (a : Attr)
  | childList (cs : List VNode)
end

/-- JS `typeof` of a vnode. -/
def jsTypeof : VNode → String
  | .textS _ => "string"
  | .textN _ => "number"
  | _ => "object"

/-- The `.type` field access: element objects have one, primitives and raw
nodes yield `undefined`. -/
def typeField : VNode → Option String
  | .obj ty _ => some ty
  | _ => none

/-- Embeds `VirtualDOM.nodeChanged`: different `typeof`, or a string text
node with a different value, or a different `.type` field.  The middle
disjunct only fires for string text nodes; `node1 !== node2` is true
whenever the two values are not the same string. -/
def nodeChanged (n1 n2 : VNode) : Bool :=
  (jsTypeof n1 != jsTypeof n2) ||
  ((jsTypeof n1 == "string") &&
    (match n1, n2 with
     | .textS a, .textS b => a != b
     | _, _ => true)) ||
  (typeField n1 != typeField n2)

/-- JS falsiness of a child slot in `diff`: `undefined` (out of range), the
empty string, and the number 0 are falsy. -/
def jsFalsyV : Option VNode → Bool
  | none => true
  | some (.textS s) => s == ""
  | some (.textN n) => n == 0
  | some _ => false

def hasProps : VNode → Bool
  | .obj _ _ => true
  | _ => false

def propsOf : VNode → List (String × PropValue)
  | .obj _ ps => ps
  | _ => []

/-- `node.props?.children` as a list (`?.length || 0` and `?.[i]`).  The
`children` entry of every element built by `createElement` is the flattened
child list; other shapes of the `children` value do not occur in trees this
renderer builds. -/
def childListOf (v : VNode) : List VNode :=
  match v with
  | .obj _ ps =>
    match alGet ps "children" with
    | some (.childList cs) => cs
    | _ => []
  | _ => []

/-- camelCase to kebab-case conversion of `_styleToString`. -/
def kebab (k : String) : String :=
  String.mk (k.data.foldr
    (fun c acc => if c.isUpper then '-' :: c.toLower :: acc else c :: acc) [])

def styleToString (kvs : List (String × String)) : String :=
  String.intercalate ";" (kvs.map (fun kv => kebab kv.1 ++ ":" ++ kv.2))

/-- String coercion performed by `setAttribute` on non-special values.  The
object arms are placeholders for JS's generic object-to-string coercion. -/
def attrString : Attr → String
  | .strA s => s
  | .numA n => toString n
  | .boolA b => if b then "true" else "false"
  | .handler _ => "[function]"
  | .styleObj _ _ => "[object]"

def pvString : PropValue → String
  | .attr a => attrString a
  | .childList _ => "[array]"

/-- JS truthiness of a prop value (`if (oldProps[key])`). -/
def pvTruthy : PropValue → Bool
  | .attr (.strA s) => s != ""
  | .attr (.numA n) => n != 0
  | .attr (.boolA b) => b
  | .attr (.handler _) => true
  | .attr (.styleObj _ _) => true
  | .childList _ => true

/-- JS strict equality `===` on prop values: primitives by value, objects
(functions, style objects, arrays) by identity. -/
def strictEqPV : PropValue → PropValue → Bool
  | .attr (.strA a), .attr (.strA b) => a == b
  | .attr (.numA a), .attr (.numA b) => a == b
  | .attr (.boolA a), .attr (.boolA b) => a == b
  | .attr (.handler a), .attr (.handler b) => a == b
  | .attr (.styleObj i _), .attr (.styleObj j _) => i == j
  | _, _ => false

/-- `name.toLowerCase().slice(2)` for `on*` props. -/
def eventNameOf (key : String) : String := (key.toLower).drop 2

def attrNameOf (key : String) : String := if key == "className" then "class" else key

/-- DOM mutations the renderer performs.  Elements are addressed by their
path of child indices; `loc` ops target the element at that path. -/
inductive DomOp where
  | append (parent : List Nat) (node : Option VNode)
  | removeChild (parent : List Nat) (index : Nat)
  | replaceNode (parent : List Nat) (index : Nat) (node : VNode)
  | setAttr (loc : List Nat) (name : String) (value : String)
  | removeAttr (loc : List Nat) (name : String)
  | addListener (loc : List Nat) (event : String) (h : PropValue)
  | removeListener (loc : List Nat) (event : String) (h : PropValue)

/-- Remove phase of `updateProps`: old keys absent from the new props are
removed (event listeners unregistered, attributes removed, `className`
mapped to `class`); the `children` key is skipped. -/
def removePhase (loc : List Nat) (oldProps newProps : List (String × PropValue)) :
    List DomOp :=
  (oldProps.map (fun kv =>
    if kv.1 == "children" then []
    else if (alGet newProps kv.1).isSome then []
    else if strStartsWith kv.1 "on" then [DomOp.removeListener loc (eventNameOf kv.1) kv.2]
    else [DomOp.removeAttr loc (attrNameOf kv.1)])).flatten

/-- Set phase of `updateProps` for one new entry: skipped when strictly
equal to the old value; `on*` props swap listeners (removing the old one
first when truthy); style objects serialize; booleans toggle presence;
everything else goes through `setAttribute` with string coercion. -/
def setOneProp (loc : List Nat) (oldProps : List (String × PropValue))
    (kv : String × PropValue) : List DomOp :=
  if kv.1 == "children" then []
  else
    let old? := alGet oldProps kv.1
    let same := match old? with
      | some o => strictEqPV o kv.2
      | none => false
    if same then []
    else if strStartsWith kv.1 "on" then
      (match old? with
       | some o => if pvTruthy o then [DomOp.removeListener loc (eventNameOf kv.1) o] else []
       | none => []) ++ [DomOp.addListener loc (eventNameOf kv.1) kv.2]
    else
      let attrN := attrNameOf kv.1
      match kv.2 with
      | .attr (.styleObj _ kvs) =>
        if attrN == "style" then [DomOp.setAttr loc "style" (styleToString kvs)]
        else [DomOp.setAttr loc attrN "[object]"]
      | .attr (.boolA b) =>
        if b then [DomOp.setAttr loc attrN ""] else [DomOp.removeAttr loc attrN]
      | v => [DomOp.setAttr loc attrN (pvString v)]

/-- Embeds `VirtualDOM.updateProps` (second phase order as in the source:
removals of vanished keys, then adds/updates of changed keys). -/
def updateProps (loc : List Nat) (oldProps newProps : List (String × PropValue)) :
    List DomOp :=
  removePhase loc oldProps newProps ++ (newProps.map (setOneProp loc oldProps)).flatten

/-! ### Termination measure helpers for `diff` -/

theorem sizeOf_alGet {κ α : Type} [DecidableEq κ] [SizeOf κ] [SizeOf α] :
    ∀ (l : List (κ × α)) (k : κ) (v : α), alGet l k = some v → sizeOf v < sizeOf l := by
  intro l
  induction l with
  | nil => intro k v h; simp [alGet] at h
  | cons hd t ih =>
    intro k v h
    obtain ⟨a, b⟩ := hd
    by_cases hk : a = k
    · rw [alGet, if_pos hk] at h
      cases h
      simp only [List.cons.sizeOf_spec, Prod.mk.sizeOf_spec]
      omega
    · rw [alGet, if_neg hk] at h
      have := ih k v h
      simp only [List.cons.sizeOf_spec]
      omega

theorem vnode_sizeOf_pos (v : VNode) : 0 < sizeOf v := by
  cases v <;> simp

theorem sizeOf_mem_childListOf {x v : VNode} (h : x ∈ childListOf v) : sizeOf x < sizeOf v := by
  cases v with
  | textS s => simp [childListOf] at h
  | textN n => simp [childListOf] at h
  | rawNode s => simp [childListOf] at h
  | obj ty props =>
    simp only [childListOf] at h
    split at h
    · next cs hg =>
      have h1 : sizeOf x < sizeOf cs := List.sizeOf_lt_of_mem h
      have h2 : sizeOf (PropValue.childList cs) < sizeOf props :=
        sizeOf_alGet props "children" _ hg
      have h3 : sizeOf (PropValue.childList cs) = 1 + sizeOf cs := by simp
      have h4 : sizeOf (VNode.obj ty props) = 1 + sizeOf ty + sizeOf props := by simp
      omega
    · next => simp at h

theorem sizeOf_child_get_lt (v : VNode) (i : Nat) :
    sizeOf ((childListOf v).get? i) < sizeOf (some v) := by
  cases hg : (childListOf v).get? i with
  | none =>
    have := vnode_sizeOf_pos v
    simp only [Option.none.sizeOf_spec, Option.some.sizeOf_spec]
    omega
  | some x =>
    have hx : x ∈ childListOf v := List.get?_mem hg
    have := sizeOf_mem_childListOf hx
    simp only [Option.some.sizeOf_spec]
    omega

/-- Embeds `VirtualDOM.diff` (vdom.js): a falsy old slot appends the
realized new node; a falsy new slot removes the child at `index`; a changed
node is replaced wholesale; otherwise props are patched in place (when both
sides are element objects) and children are diffed positionally up to the
longer child list. -/
def diff (old new : Option VNode) (parent : List Nat) (index : Nat) : List DomOp :=
  if jsFalsyV old then [DomOp.append parent new]
  else if jsFalsyV new then [DomOp.removeChild parent index]
  else
    match old, new with
    | some o, some n =>
      if nodeChanged o n then [DomOp.replaceNode parent index n]
      else
        (if hasProps o && hasProps n then
          updateProps (parent ++ [index]) (propsOf o) (propsOf n)
        else []) ++
        ((List.range (Nat.max (childListOf o).length (childListOf n).length)).map
          (fun i =>
            diff ((childListOf o).get? i) ((childListOf n).get? i) (parent ++ [index]) i)).flatten
    | _, _ => []
termination_by sizeOf old + sizeOf new
decreasing_by
  have ho := sizeOf_child_get_lt o i
  have hn := sizeOf_child_get_lt n i
  omega

/-! ### `createElement` (vdom.js)

The rest arguments of `createElement` may be vnodes, nested arrays of
them, `null`/`undefined`, or booleans.  `.flat()` flattens one array
level; the filter then drops `null`, `undefined`, `false` and `true`. -/

inductive ChildItem where
  | node (v : VNode)
  | nullish
  | boolItem (b : Bool)

inductive ChildArg where
  | single (c : ChildItem)
  | array (cs : List ChildItem)

/-- `children.flat().filter(c => c !== null && c !== undefined && c !== false
&& c !== true)`. -/
def flattenFilter (args : List ChildArg) : List VNode :=
  ((args.map (fun a => match a with | .single c => [c] | .array cs => cs)).flatten).filterMap
    (fun c => match c with | .node v => some v | _ => none)

/-- Embeds `VirtualDOM.createElement`: returns
`{ type, props: { ...props, children: flat } }`.  The spread copies the
caller's props in order and the `children` entry is then set (updated in
place when the caller passed one, appended otherwise), exactly the `alSet`
semantics of a JS object literal. -/
def createElement (ty : String) (props : List (String × PropValue)) (children : List ChildArg) :
    VNode :=
  VNode.obj ty (alSet props "children" (PropValue.childList (flattenFilter children)))

/-- The key list of a vnode's `props` object. -/
def propsKeys (v : VNode) : List String :=
  (propsOf v).map Prod.fst

/-! ## Render batching (`VirtualDOM.render`, `_schedule`, `_flush`)

Containers are identified by ids (the source keys its queue `Map` and tree
`WeakMap` by container object identity).  `_commit` is abstracted to the
act of committing a (container, vnode) pair: the claims below concern the
scheduling layer, and commits are reported as the ordered list of pairs
`_flush` passes to `_commit`. -/

structure BatchState where
  queue : List (Nat × VNode)
  scheduled : Bool
  pendingFlushes : Nat

def initialBatch : BatchState := ⟨[], false, 0⟩

/-- Embeds `_flush`: an empty queue just clears `scheduled`; otherwise the
queue entries are snapshotted, the queue cleared, `scheduled` reset, and
each entry committed in insertion order. -/
def flushRun (s : BatchState) : BatchState × List (Nat × VNode) :=
  if s.queue.isEmpty then ({ s with scheduled := false }, [])
  else ({ s with queue := [], scheduled := false }, s.queue)

/-- Embeds `render(vnode, container, options)`: `queue.set(container,
vnode)`, then either a synchronous `_flush` (`options.sync`) or
`_schedule`, which queues at most one microtask while `scheduled` holds.
Returns the state and the commits performed synchronously by this call. -/
def render (s : BatchState) (c : Nat) (v : VNode) (sync : Bool) :
    BatchState × List (Nat × VNode) :=
  let s1 : BatchState := { s with queue := alSet s.queue c v }
  if sync then flushRun s1
  else if s1.scheduled then (s1, [])
  else ({ s1 with scheduled := true, pendingFlushes := s1.pendingFlushes + 1 }, [])

/-- Drain the queued `queueMicrotask(() => this._flush())` callbacks. -/
def runFlushes : Nat → BatchState → BatchState × List (Nat × VNode)
  | 0, s => (s, [])
  | n + 1, s =>
    let p1 := flushRun s
    let p2 := runFlushes n p1.1
    (p2.1, p1.2 ++ p2.2)

/-- One event-loop turn: a sequence of `render` calls followed by the
microtask checkpoint.  Returns the final state and every commit in order. -/
def runTurn (calls : List (Nat × VNode × Bool)) (s : BatchState) :
    BatchState × List (Nat × VNode) :=
  let stepped := calls.foldl
    (fun (acc : BatchState × List (Nat × VNode)) call =>
      let r := render acc.1 call.1 call.2.1 call.2.2
      (r.1, acc.2 ++ r.2))
    (s, [])
  let flushed := runFlushes stepped.1.pendingFlushes { stepped.1 with pendingFlushes := 0 }
  (flushed.1, stepped.2 ++ flushed.2)

/-- The last vnode queued for container `c` in a call sequence (what the
specification says must be the one committed). -/
def lastQueued (calls : List (Nat × VNode)) (c : Nat) : Option VNode :=
  ((calls.filter (fun cv => cv.1 = c)).map Prod.snd).getLast?

/-! ## HMR update pipeline (`src/client/hmr.js`, `HotModuleReplacement`)

The DOM is modelled by the observables the pipeline reads and writes: the
root container's inner content, the `data-react-state` elements (key →
text content, in document order), the form controls (name → snapshot
fields), the focused element selector and the scroll position.  The
browser's HTML parser for the fetched document is an abstract function
`parse` supplied to the pipeline. -/

structure FormSnap where
  value : String
  typeAttr : String
  checked : Bool
  selStart : Int
  selEnd : Int
deriving Repr, DecidableEq

structure HmrDom where
  rootInner : String
  stateEls : List (String × String)
  forms : List (String × FormSnap)
  focusedSel : Option String
  scrollX : Int
  scrollY : Int
deriving Repr, DecidableEq

/-- What `getRootContainer`/`temp.innerHTML = html` expose of the fetched
replacement document. -/
structure ParsedDoc where
  rootInner : String
  stateEls : List (String × String)
  forms : List (String × FormSnap)
deriving Repr, DecidableEq

/-- Outcome of `fetch('/__react-express/placeholder' + path)`: the promise
rejects (transport failure) or resolves with a response whose `ok` flag the
pipeline never reads and whose `text()` is `body`. -/
inductive FetchOutcome where
  | failure
  | response (ok : Bool) (body : String)

/-- Pipeline phases, in the order `processUpdate` executes them. -/
inductive HmrStep where
  | fetchStep
  | parseStep
  | captureState
  | captureForms
  | captureFocusScroll
  | findRoots
  | mergeStep
  | restoreState
  | restoreForms
  | restoreFocusScroll
  | scriptsStep
  | stylesStep
  | reinitStep
  | dispatchStep (success : Bool)
deriving Repr, DecidableEq

/-- Embeds `captureStateValues`: walk the `[data-react-state]` elements and
`Map.set(key, textContent)` — later duplicates win. -/
def captureStateValues (d : HmrDom) : List (String × String) :=
  d.stateEls.foldl (fun m kv => alSet m kv.1 kv.2) []

/-- Embeds `captureFormStates` (keyed by the `tag[name=..]` selector used at
restore time). -/
def captureFormStates (d : HmrDom) : List (String × FormSnap) :=
  d.forms.foldl (fun m kv => alSet m kv.1 kv.2) []

/-- Embeds `captureFocusAndScroll`. -/
def captureFocusAndScroll (d : HmrDom) : Option String × Int × Int :=
  (d.focusedSel, d.scrollX, d.scrollY)

/-- Embeds `mergeContent`: `oldContainer.innerHTML = newContainer.innerHTML`
— a wholesale overwrite that replaces the root's content (and with it the
state-bound elements and form controls, destroying focus). -/
def mergeContent (d : HmrDom) (p : ParsedDoc) : HmrDom :=
  { d with rootInner := p.rootInner, stateEls := p.stateEls, forms := p.forms,
           focusedSel := none }

/-- Embeds `restoreStateValues`: for each captured (key, text), write the
text into the first matching element of the new DOM, if any. -/
def restoreStateValues (d : HmrDom) (snap : List (String × String)) : HmrDom :=
  let els2 :=
    snap.foldl
      (fun els kv => if (alGet els kv.1).isSome then alSet els kv.1 kv.2 else els)
      d.stateEls
  { d with stateEls := els2 }

/-- Embeds `restoreFormStates`: value and checked always restored on a name
match; the selection range only for text inputs and textareas. -/
def restoreFormStates (d : HmrDom) (snap : List (String × FormSnap)) : HmrDom :=
  let fs2 :=
    snap.foldl
      (fun fs kv =>
        match alGet fs kv.1 with
        | none => fs
        | some cur =>
          let c2 : FormSnap := { cur with value := kv.2.value, checked := kv.2.checked }
          let c3 : FormSnap :=
            if kv.2.typeAttr == "text" || kv.2.typeAttr == "textarea" then
              { c2 with selStart := kv.2.selStart, selEnd := kv.2.selEnd }
            else c2
          alSet fs kv.1 c3)
      d.forms
  { d with forms := fs2 }

/-- Embeds `restoreFocusAndScroll`: refocus the captured selector when it
still matches and restore the scroll offsets. -/
def restoreFocusAndScroll (d : HmrDom) (ctx : Option String × Int × Int) : HmrDom :=
  let d2 : HmrDom :=
    match ctx.1 with
    | some sel => { d with focusedSel := some sel }
    | none => d
  { d2 with scrollX := ctx.2.1, scrollY := ctx.2.2 }

/-- Embeds `processUpdate`: fetch (throwing on transport failure — note the
absent `response.ok` check), parse, capture state/forms/focus-scroll, find
the root containers, merge, restore, re-execute scripts, hot-swap styles,
re-run the ReactExpress init hooks, and dispatch `success:true`.  Returns
the executed phase trace and the resulting DOM. -/
def processUpdate (parse : String → ParsedDoc) (f : FetchOutcome) (d : HmrDom) :
    Except Unit (List HmrStep × HmrDom) :=
  match f with
  | .failure => .error ()
  | .response _ body =>
    let p := parse body
    let snapState := captureStateValues d
    let snapForms := captureFormStates d
    let snapFS := captureFocusAndScroll d
    let d1 := mergeContent d p
    let d2 := restoreStateValues d1 snapState
    let d3 := restoreFormStates d2 snapForms
    let d4 := restoreFocusAndScroll d3 snapFS
    .ok ([.fetchStep, .parseStep, .captureState, .captureForms, .captureFocusScroll,
          .findRoots, .mergeStep, .restoreState, .restoreForms, .restoreFocusScroll,
          .scriptsStep, .stylesStep, .reinitStep, .dispatchStep true], d4)

/-- Result of one socket-triggered update cycle: the phase trace, the DOM,
the `success` flags of the dispatched `hmr:updated` events, and whether a
reload was forced. -/
structure HmrOut where
  trace : List HmrStep
  dom : HmrDom
  dispatched : List Bool
  reloaded : Bool
deriving Repr, DecidableEq

/-- Embeds the `hmr:update` handler body: `try { await processUpdate() }
catch (error) { handleUpdateError(error) }`, where `handleUpdateError`
logs to the overlay, never reloads, and dispatches `success:false`. -/
def updateCycle (parse : String → ParsedDoc) (f : FetchOutcome) (d : HmrDom) : HmrOut :=
  match processUpdate parse f d with
  | .ok r => ⟨r.1, r.2, [true], false⟩
  | .error _ => ⟨[.fetchStep], d, [false], false⟩

/-- Checks that no capture phase runs after the merge phase in a trace. -/
def noCaptureAfterMerge : List HmrStep → Bool
  | [] => true
  | .mergeStep :: rest =>
    rest.all (fun s =>
      s != .captureState && s != .captureForms && s != .captureFocusScroll) &&
    noCaptureAfterMerge rest
  | _ :: rest => noCaptureAfterMerge rest

/-! ## General lemmas about map folds -/

theorem alSet_ne_nil {κ α : Type} [DecidableEq κ] (l : List (κ × α)) (k : κ) (v : α) :
    alSet l k v ≠ [] := by
  cases l with
  | nil => simp [alSet]
  | cons hd t => 
    obtain ⟨a, b⟩ := hd
    by_cases h : a = k <;> simp [alSet, h]

theorem foldl_alSet_ne_nil {κ α : Type} [DecidableEq κ] (l : List (κ × α)) :
    ∀ (m : List (κ × α)), m ≠ [] →
      l.foldl (fun m2 kv => alSet m2 kv.1 kv.2) m ≠ [] := by
  induction l with
  | nil => intro m h; exact h
  | cons hd t ih =>
    intro m _
    exact ih (alSet m hd.1 hd.2) (alSet_ne_nil m hd.1 hd.2)

theorem getLast?_cons_of_some {α : Type} (x v : α) (l : List α)
    (h : l.getLast? = some v) : (x :: l).getLast? = some v := by
  cases l with
  | nil => simp at h
  | cons y t => rw [List.getLast?_cons_cons]; exact h

theorem getLast?_none_eq_nil {α : Type} (l : List α) (h : l.getLast? = none) : l = [] := by
  cases l with
  | nil => rfl
  | cons y t =>
    exfalso
    cases t with
    | nil => simp [List.getLast?] at h
    | cons z t2 =>
      rw [List.getLast?_cons_cons] at h
      have := getLast?_none_eq_nil _ h
      simp at this

theorem alGet_foldl_alSet {κ α : Type} [DecidableEq κ] (l : List (κ × α)) :
    ∀ (m : List (κ × α)) (k : κ),
      alGet (l.foldl (fun m2 kv => alSet m2 kv.1 kv.2) m) k =
        match ((l.filter (fun kv => kv.1 = k)).map Prod.snd).getLast? with
        | some v => some v
        | none => alGet m k := by
  induction l with
  | nil => intro m k; simp
  | cons hd t ih =>
    intro m k
    obtain ⟨a, b⟩ := hd
    simp only [List.foldl_cons]
    rw [ih]
    by_cases hk : a = k
    · subst hk
      simp only [List.filter_cons, decide_True, if_true, List.map_cons]
      cases hlast : ((t.filter (fun kv => kv.1 = a)).map Prod.snd).getLast? with
      | some v => rw [getLast?_cons_of_some b v _ hlast]
      | none =>
        have hnil := getLast?_none_eq_nil _ hlast
        rw [hnil]
        simp [alGet_alSet_same]
    · have hdk : (decide (a = k)) = false := by simp [hk]
      simp only [List.filter_cons, hdk, Bool.false_eq_true, if_false]
      cases hlast : ((t.filter (fun kv => kv.1 = k)).map Prod.snd).getLast? with
      | some v => simp [hlast]
      | none => simp [hlast, alGet_alSet_other m a k b (fun h => hk h.symm)]

theorem keys_alSet {κ α : Type} [DecidableEq κ] (l : List (κ × α)) (k : κ) (v : α) :
    (alSet l k v).map Prod.fst =
      if k ∈ l.map Prod.fst then l.map Prod.fst else l.map Prod.fst ++ [k] := by
  induction l with
  | nil => simp [alSet]
  | cons hd t ih =>
    obtain ⟨a, b⟩ := hd
    by_cases hk : a = k
    · subst hk
      simp [alSet]
    · have hne : ¬ (k = a) := fun h => hk h.symm
      by_cases hmem : k ∈ t.map Prod.fst
      · simp [alSet, hk, ih, hmem, hne]
      · simp [alSet, hk, ih, hmem, hne]

theorem keysNodup_alSet {κ α : Type} [DecidableEq κ] (l : List (κ × α)) (k : κ) (v : α)
    (h : (l.map Prod.fst).Nodup) : ((alSet l k v).map Prod.fst).Nodup := by
  rw [keys_alSet]
  by_cases hmem : k ∈ l.map Prod.fst
  · simpa [hmem]
  · simp only [hmem, if_false]
    rw [List.nodup_append]
    refine ⟨h, List.nodup_singleton k, ?_⟩
    intro a ha hb
    simp only [List.mem_singleton] at hb
    exact hmem (hb ▸ ha)

theorem keysNodup_foldl_alSet {κ α : Type} [DecidableEq κ] (l : List (κ × α)) :
    ∀ (m : List (κ × α)), (m.map Prod.fst).Nodup →
      ((l.foldl (fun m2 kv => alSet m2 kv.1 kv.2) m).map Prod.fst).Nodup := by
  induction l with
  | nil => intro m h; exact h
  | cons hd t ih =>
    intro m h
    exact ih (alSet m hd.1 hd.2) (keysNodup_alSet m hd.1 hd.2 h)

theorem alGet_eq_head_filter {κ α : Type} [DecidableEq κ] (l : List (κ × α)) (k : κ) :
    alGet l k = ((l.filter (fun kv => kv.1 = k)).map Prod.snd).head? := by
  induction l with
  | nil => simp [alGet]
  | cons hd t ih =>
    obtain ⟨a, b⟩ := hd
    by_cases hk : a = k
    · simp [alGet, hk]
    · have hdk : (decide (a = k)) = false := by simp [hk]
      simp [alGet, hk, hdk, ih]

theorem filter_key_len_le_one {κ α : Type} [DecidableEq κ] (l : List (κ × α)) (k : κ)
    (h : (l.map Prod.fst).Nodup) : (l.filter (fun kv => kv.1 = k)).length ≤ 1 := by
  induction l with
  | nil => simp
  | cons hd t ih =>
    obtain ⟨a, b⟩ := hd
    simp only [List.map_cons, List.nodup_cons] at h
    by_cases hk : a = k
    · subst hk
      have hnil : t.filter (fun kv => kv.1 = a) = [] := by
        rw [List.filter_eq_nil_iff]
        intro kv hkv
        simp only [decide_eq_true_eq]
        intro heq
        exact h.1 (heq ▸ List.mem_map_of_mem Prod.fst hkv)
      simp [List.filter_cons, hnil]
    · have hdk : (decide (a = k)) = false := by simp [hk]
      simp only [List.filter_cons, hdk, Bool.false_eq_true, if_false]
      exact ih h.2

theorem head?_eq_getLast?_of_len_le_one {α : Type} (l : List α) (h : l.length ≤ 1) :
    l.head? = l.getLast? := by
  match l with
  | [] => rfl
  | [a] => rfl
  | a :: b :: t => simp at h

/-- On a map with unique keys, the last-wins capture fold reads back the
original entries. -/
theorem alGet_capture_fold {κ α : Type} [DecidableEq κ] (l : List (κ × α)) (k : κ)
    (h : (l.map Prod.fst).Nodup) :
    alGet (l.foldl (fun m2 kv => alSet m2 kv.1 kv.2) []) k = alGet l k := by
  rw [alGet_foldl_alSet]
  rw [alGet_eq_head_filter l k]
  rw [head?_eq_getLast?_of_len_le_one _ (by simpa using filter_key_len_le_one l k h)]
  cases hlast : ((l.filter (fun kv => kv.1 = k)).map Prod.snd).getLast? <;> simp [alGet]

theorem alGet_restore_fold_notmem {κ α : Type} [DecidableEq κ] (snap : List (κ × α)) :
    ∀ (els : List (κ × α)) (k : κ), k ∉ snap.map Prod.fst →
      alGet (snap.foldl
        (fun els2 kv => if (alGet els2 kv.1).isSome then alSet els2 kv.1 kv.2 else els2) els) k =
      alGet els k := by
  induction snap with
  | nil => intro els k _; rfl
  | cons hd t ih =>
    intro els k hk
    simp only [List.map_cons, List.mem_cons, not_or] at hk
    simp only [List.foldl_cons]
    rw [ih _ k hk.2]
    by_cases hg : (alGet els hd.1).isSome
    · simp only [hg, if_true]
      exact alGet_alSet_other els hd.1 k hd.2 hk.1
    · simp [hg]

theorem alGet_restore_fold {κ α : Type} [DecidableEq κ] (snap : List (κ × α)) :
    ∀ (els : List (κ × α)) (k : κ) (t : α),
      (snap.map Prod.fst).Nodup → alGet snap k = some t → (alGet els k).isSome →
      alGet (snap.foldl
        (fun els2 kv => if (alGet els2 kv.1).isSome then alSet els2 kv.1 kv.2 else els2) els) k =
      some t := by
  induction snap with
  | nil => intro els k t _ hget _; simp [alGet] at hget
  | cons hd t0 ih =>
    intro els k t hnd hget hin
    obtain ⟨a, b⟩ := hd
    simp only [List.map_cons, List.nodup_cons] at hnd
    simp only [List.foldl_cons]
    by_cases hk : a = k
    · subst hk
      rw [alGet, if_pos rfl] at hget
      injection hget with hbt
      subst hbt
      simp only [hin, if_true]
      rw [alGet_restore_fold_notmem t0 _ a hnd.1]
      exact alGet_alSet_same els a _
    · rw [alGet, if_neg hk] at hget
      by_cases hg : (alGet els a).isSome
      · simp only [hg, if_true]
        refine ih _ k t hnd.2 hget ?_
        rw [alGet_alSet_other els a k b (fun h => hk h.symm)]
        exact hin
      · simp only [hg, Bool.false_eq_true, if_false]
        exact ih _ k t hnd.2 hget hin

/-! ## Claim theorems: HMR pipeline (C1, C6) -/

theorem restoreFocusAndScroll_rootInner (d : HmrDom) (ctx : Option String × Int × Int) :
    (restoreFocusAndScroll d ctx).rootInner = d.rootInner := by
  obtain ⟨sel, x, y⟩ := ctx
  cases sel <;> rfl

theorem restoreFocusAndScroll_stateEls (d : HmrDom) (ctx : Option String × Int × Int) :
    (restoreFocusAndScroll d ctx).stateEls = d.stateEls := by
  obtain ⟨sel, x, y⟩ := ctx
  cases sel <;> rfl

def parseFixture : String → ParsedDoc := fun s => ⟨s, [], []⟩

def domFixture : HmrDom := ⟨"OLD", [], [], none, 0, 0⟩

/-- C1 counterexample: for a non-OK HTTP response carrying an error
document, the pipeline does not transition to the error path — the fetched
body is merged into the live root (replacing the previous content "OLD")
and the `hmr:updated` event carries `success:true`, where the claim
requires `success:false` and an unpatched page. -/
theorem hmr_nonok_counterexample :
    (updateCycle parseFixture (.response false "ERRORDOC") domFixture).dispatched = [true] ∧
    (updateCycle parseFixture (.response false "ERRORDOC") domFixture).dom.rootInner
      = "ERRORDOC" ∧
    domFixture.rootInner = "OLD" :=
  ⟨rfl, rfl, rfl⟩

/-- C1 (amended): a transport failure of the HMR fetch is caught and
surfaced as an `hmr:updated` event with `success:false`, with no forced
reload and the page left unpatched; but a resolved HTTP response is
processed regardless of its `ok` flag — its body (even an error document)
is parsed, merged into the live root, and `success:true` is dispatched. -/
theorem hmr_fetch_error_amended :
    ∀ (parse : String → ParsedDoc) (d : HmrDom),
      updateCycle parse .failure d = ⟨[.fetchStep], d, [false], false⟩ ∧
      ∀ (ok : Bool) (body : String),
        (updateCycle parse (.response ok body) d).dispatched = [true] ∧
        (updateCycle parse (.response ok body) d).reloaded = false ∧
        (updateCycle parse (.response ok body) d).dom.rootInner = (parse body).rootInner := by
  intro parse d
  refine ⟨rfl, ?_⟩
  intro ok body
  refine ⟨rfl, rfl, ?_⟩
  have h1 : (updateCycle parse (.response ok body) d).dom =
      restoreFocusAndScroll
        (restoreFormStates
          (restoreStateValues (mergeContent d (parse body)) (captureStateValues d))
          (captureFormStates d))
        (captureFocusAndScroll d) := rfl
  rw [h1, restoreFocusAndScroll_rootInner]
  rfl

def parseFixture2 : String → ParsedDoc := fun s => ⟨s, [("count", "0")], []⟩

def domFixture2 : HmrDom := ⟨"OLD", [("count", "7")], [], none, 0, 0⟩

/-- C6: in every update cycle the capture phases all run before the merge
phase, and the state text restored after the replacement is the one read
from the pre-merge document: any `data-react-state` key present both
before the merge and in the parsed replacement ends up showing its
pre-merge text, not the replacement's. -/
theorem hmr_capture_before_replace :
    ∀ (parse : String → ParsedDoc) (f : FetchOutcome) (d : HmrDom),
      noCaptureAfterMerge (updateCycle parse f d).trace = true ∧
      ∀ (ok : Bool) (body : String) (k : String) (txt : String),
        (d.stateEls.map Prod.fst).Nodup →
        alGet d.stateEls k = some txt →
        (alGet (parse body).stateEls k).isSome = true →
        alGet (updateCycle parse (.response ok body) d).dom.stateEls k = some txt := by
  intro parse f d
  constructor
  · cases f with
    | failure => rfl
    | response ok body => rfl
  · intro ok body k txt hnd hget hin
    have hdom : (updateCycle parse (.response ok body) d).dom.stateEls =
        (restoreStateValues (mergeContent d (parse body)) (captureStateValues d)).stateEls := by
      have h1 : (updateCycle parse (.response ok body) d).dom =
          restoreFocusAndScroll
            (restoreFormStates
              (restoreStateValues (mergeContent d (parse body)) (captureStateValues d))
              (captureFormStates d))
            (captureFocusAndScroll d) := rfl
      rw [h1, restoreFocusAndScroll_stateEls]
      rfl
    rw [hdom]
    show alGet ((captureStateValues d).foldl
      (fun els2 kv => if (alGet els2 kv.1).isSome then alSet els2 kv.1 kv.2 else els2)
      (mergeContent d (parse body)).stateEls) k = some txt
    refine alGet_restore_fold (captureStateValues d) _ k txt ?_ ?_ ?_
    · exact keysNodup_foldl_alSet d.stateEls [] (by simp)
    · exact (alGet_capture_fold d.stateEls k hnd).trans hget
    · exact hin

/-- C6 witness: a concrete cycle where the pre-merge text "7" of the
`count` element survives the replacement whose parsed document carries
"0". -/
theorem hmr_capture_before_replace_witness :
    noCaptureAfterMerge (updateCycle parseFixture2 (.response true "NEW") domFixture2).trace
      = true ∧
    alGet (updateCycle parseFixture2 (.response true "NEW") domFixture2).dom.stateEls "count"
      = some "7" :=
  ⟨(hmr_capture_before_replace parseFixture2 (.response true "NEW") domFixture2).1,
   (hmr_capture_before_replace parseFixture2 (.response true "NEW") domFixture2).2
     true "NEW" "count" "7" (by decide) (by decide) (by decide)⟩

/-! ## Claim theorems: createElement props shape (C2) -/

/-- C2 counterexample: the vnode built by `createElement('div', {}, ...)`
does carry a `children` key inside its `props` object (the source returns
`{ type, props: { ...props, children: flat } }`), where the claim says
`props` never contains a `children` key. -/
theorem createElement_children_counterexample :
    "children" ∈ propsKeys (createElement "div" [] []) ∧
    propsKeys (createElement "div" [] []) = ["children"] := by
  refine ⟨?_, rfl⟩
  rw [show propsKeys (createElement "div" [] []) = ["children"] from rfl]
  exact List.mem_singleton.mpr rfl

/-- C2 (amended): the `props` map of every vnode built by `createElement`
contains a `children` key bound to the flattened, null/undefined/boolean-
filtered child list (children are carried inside `props`, not positionally
outside it), and every other entry of the caller's props is preserved
unchanged. -/
theorem createElement_children_in_props :
    ∀ (ty : String) (props : List (String × PropValue)) (children : List ChildArg),
      alGet (propsOf (createElement ty props children)) "children" =
        some (PropValue.childList (flattenFilter children)) ∧
      ∀ k : String, k ≠ "children" →
        alGet (propsOf (createElement ty props children)) k = alGet props k := by
  intro ty props children
  constructor
  · exact alGet_alSet_same props "children" _
  · intro k hk
    exact alGet_alSet_other props "children" k _ hk

/-- C2 witness: a concrete call whose result holds its children under the
`children` key and keeps the caller's `id` prop. -/
theorem createElement_children_in_props_witness :
    alGet (propsOf (createElement "div" [("id", PropValue.attr (Attr.strA "x"))]
        [ChildArg.single (ChildItem.node (VNode.textS "hi"))])) "children" =
      some (PropValue.childList [VNode.textS "hi"]) ∧
    alGet (propsOf (createElement "div" [("id", PropValue.attr (Attr.strA "x"))]
        [ChildArg.single (ChildItem.node (VNode.textS "hi"))])) "id" =
      some (PropValue.attr (Attr.strA "x")) :=
  ⟨(createElement_children_in_props "div" [("id", PropValue.attr (Attr.strA "x"))]
      [ChildArg.single (ChildItem.node (VNode.textS "hi"))]).1,
   (createElement_children_in_props "div" [("id", PropValue.attr (Attr.strA "x"))]
      [ChildArg.single (ChildItem.node (VNode.textS "hi"))]).2 "id" (by decide)⟩

/-! ## Claim theorems: diff replacement predicate (C5) -/

/-- Modelled from the amended claim: a node counts as changed when the JS
types differ, when both are string text nodes with different values, or
when the `.type` fields differ.  (The original claim also counted numeric
text nodes with different values as changed; the source does not.) -/
def changedSpecAmended (o n : VNode) : Bool :=
  (jsTypeof o != jsTypeof n) ||
  (match o, n with
   | .textS a, .textS b => a != b
   | _, _ => false) ||
  (typeField o != typeField n)

/-- C5 counterexample: the numeric text nodes `1` and `2` differ in text
value, so the claim requires a wholesale replacement, but `nodeChanged`
returns false for them (its value test only covers strings) and `diff`
emits no operation at all: the stale `1` stays in the DOM. -/
theorem diff_numeric_text_counterexample :
    nodeChanged (.textN 1) (.textN 2) = false ∧
    diff (some (.textN 1)) (some (.textN 2)) [] 0 = [] := by
  constructor
  · rfl
  · rw [diff]
    rfl

/-- C5 (amended): for non-falsy nodes compared at the same position, `diff`
replaces wholesale exactly when `nodeChanged` holds, and `nodeChanged` is
exactly: different JS type, different value of string text nodes, or
different element tag (`.type` field) — numeric text nodes with equal JS
type are never treated as changed; otherwise attributes are patched in
place via `updateProps` and children are recursed positionally up to
`max(oldChildCount, newChildCount)`. -/
theorem diff_replace_iff_changed :
    ∀ (o n : VNode) (parent : List Nat) (index : Nat),
      jsFalsyV (some o) = false → jsFalsyV (some n) = false →
      (nodeChanged o n = changedSpecAmended o n) ∧
      (nodeChanged o n = true →
        diff (some o) (some n) parent index = [DomOp.replaceNode parent index n]) ∧
      (nodeChanged o n = false →
        diff (some o) (some n) parent index =
          (if hasProps o && hasProps n then
            updateProps (parent ++ [index]) (propsOf o) (propsOf n)
          else []) ++
          ((List.range (Nat.max (childListOf o).length (childListOf n).length)).map
            (fun i =>
              diff ((childListOf o).get? i) ((childListOf n).get? i)
                (parent ++ [index]) i)).flatten) := by
  intro o n parent index ho hn
  refine ⟨?_, ?_, ?_⟩
  · cases o <;> cases n <;>
      simp [nodeChanged, changedSpecAmended, jsTypeof, typeField]
  · intro hch
    rw [diff]
    simp [ho, hn, hch]
  · intro hch
    rw [diff]
    simp [ho, hn, hch]

/-- C5 witness: two string text nodes with different values are changed and
replaced; two identical empty divs are unchanged. -/
theorem diff_replace_iff_changed_witness :
    nodeChanged (VNode.textS "a") (VNode.textS "b")
      = changedSpecAmended (VNode.textS "a") (VNode.textS "b") ∧
    diff (some (VNode.textS "a")) (some (VNode.textS "b")) [] 0
      = [DomOp.replaceNode [] 0 (VNode.textS "b")] :=
  ⟨(diff_replace_iff_changed (VNode.textS "a") (VNode.textS "b") [] 0 rfl rfl).1,
   (diff_replace_iff_changed (VNode.textS "a") (VNode.textS "b") [] 0 rfl rfl).2.1 rfl⟩

/-! ## Claim theorems: formatter fallback (C9) -/

/-- An environment with an empty registry, no globals, and a `new Function`
that always throws. -/
def envEmpty : FmtEnv := ⟨[], [], fun _ => none, fun _ v => v⟩

/-- A plain (non-form) element bound to `key`. -/
def plainElem (i : Nat) (key : String) : DocElem :=
  ⟨i, "DIV", "", some key, none, false, "", false, false, 0, .str ""⟩

/-- The displayed content of the element with the given id. -/
def docContent (s : Store) (i : Nat) : Option JSValue :=
  (s.doc.find? (fun e => e.id = i)).map DocElem.content

/-- C9 counterexample: resolving the unknown formatter name "doesNotExist"
returns null without logging anything (`console.error` runs only in the
catch branch, which an unknown name never reaches), where the claim says
an error is logged; the element still renders the raw value 5. -/
theorem formatter_unresolvable_counterexample :
    resolveFormatter envEmpty (.strArg "doesNotExist") = (none, false) ∧
    ((setBindingValue envEmpty
        (bindState envEmpty ⟨[], [plainElem 7 "x"], []⟩ "x" 7
          (some (.strArg "doesNotExist"))) "x" (.num 5)).map
      (fun s2 => docContent s2 7)) = some (some (.num 5)) := by
  constructor
  · decide
  · decide

/-- C9 (amended): formatter resolution failures never throw; an error is
logged exactly when a `js:`-prefixed expression fails to compile (the only
path reaching the catch); a plain unresolvable name is silently ignored —
no formatter is recorded and the element falls back to rendering the raw
state value. -/
theorem formatter_fallback_amended :
    ∀ (env : FmtEnv) (f : String),
      ((resolveFormatter env (.strArg f)).2 = true ↔
        (alGet env.registry f = none ∧ alGet env.globals f = none ∧
         strStartsWith f "js:" = true ∧ env.jsCompile (f.drop 3) = none)) ∧
      ∀ (i : Nat) (key : String) (v : JSValue) (el : DocElem),
        el.id = i → el.tagName ≠ "INPUT" →
        (resolveFormatter env (.strArg f)).1 = none →
        ((setBindingValue env (bindState env ⟨[], [el], []⟩ key i (some (.strArg f))) key v).map
          (fun s2 => docContent s2 i)) = some (some (coalesce v)) := by
  intro env f
  constructor
  · simp only [resolveFormatter]
    cases hr : alGet env.registry f with
    | some id => simp
    | none =>
      cases hg : alGet env.globals f with
      | some id => simp
      | none =>
        by_cases hs : strStartsWith f "js:"
        · cases hc : env.jsCompile (f.drop 3) with
          | some id => simp [hs, hc]
          | none => simp [hs, hc]
        · simp [hs]
  · intro i key v el hid htagne hres
    have htag : (el.tagName == "INPUT") = false := by
      simp only [beq_eq_false_iff_ne, ne_eq]
      exact htagne
    simp [bindState, setBindingValue, updateBoundElements, updDocElem, updateElement,
      displayOf, docContent, setAdd, alGet, alSet, hres, hid, htag, htagne]

/-- C9 witness: with an empty registry, the unresolvable name "nope" still
lets the element render the raw value. -/
theorem formatter_fallback_amended_witness :
    ((setBindingValue envEmpty
        (bindState envEmpty ⟨[], [plainElem 3 "k"], []⟩ "k" 3 (some (.strArg "nope"))) "k"
        (.num 7)).map (fun s2 => docContent s2 3)) = some (some (coalesce (.num 7))) :=
  (formatter_fallback_amended envEmpty "nope").2 3 "k" (.num 7) (plainElem 3 "k")
    (by decide) (by decide) (by decide)

/-! ## Claim theorems: set/notify and frame effects (C3, C10) -/

theorem updateElement_id (env : FmtEnv) (e : DocElem) (v : JSValue) (fmt : Option Nat) :
    (updateElement env e v fmt).id = e.id := by
  simp only [updateElement]
  split
  · cases v <;> rfl
  · split <;> rfl

theorem updateElement_listeners (env : FmtEnv) (e : DocElem) (v : JSValue) (fmt : Option Nat) :
    (updateElement env e v fmt).listeners = e.listeners := by
  simp only [updateElement]
  split
  · cases v <;> rfl
  · split <;> rfl

theorem updateElement_bound (env : FmtEnv) (e : DocElem) (v : JSValue) (fmt : Option Nat) :
    (updateElement env e v fmt).bound = e.bound := by
  simp only [updateElement]
  split
  · cases v <;> rfl
  · split <;> rfl

theorem find_map_id (doc : List DocElem) (g : DocElem → DocElem)
    (hg : ∀ e, (g e).id = e.id) (i : Nat) :
    (doc.map g).find? (fun e => e.id = i) = (doc.find? (fun e => e.id = i)).map g := by
  induction doc with
  | nil => rfl
  | cons e t ih =>
    by_cases he : e.id = i
    · rw [List.map_cons, List.find?_cons_of_pos _ (by simp [hg, he]),
        List.find?_cons_of_pos _ (by simp [he])]
      rfl
    · rw [List.map_cons, List.find?_cons_of_neg _ (by simp [hg, he]),
        List.find?_cons_of_neg _ (by simp [he])]
      exact ih

/-- With a duplicate-free element set, `_updateBoundElements` is the
pointwise update of exactly the bound elements. -/
theorem foldl_updDoc_eq_map (env : FmtEnv) (val : JSValue) (fmts : List (Nat × Nat)) :
    ∀ (es : List Nat) (doc : List DocElem), es.Nodup →
      es.foldl (fun d i => updDocElem d i (fun e => updateElement env e val (alGet fmts i))) doc =
        doc.map (fun e => if e.id ∈ es then updateElement env e val (alGet fmts e.id) else e) := by
  intro es
  induction es with
  | nil =>
    intro doc _
    simp
  | cons j t ih =>
    intro doc hnd
    have hji : j ∉ t := (List.nodup_cons.mp hnd).1
    simp only [List.foldl_cons]
    rw [ih _ (List.nodup_cons.mp hnd).2]
    rw [updDocElem, List.map_map]
    apply List.map_congr_left
    intro e _
    simp only [Function.comp_apply]
    by_cases hej : e.id = j
    · rw [if_pos hej]
      rw [if_neg (by rw [updateElement_id, hej]; exact hji)]
      rw [if_pos (by rw [hej]; exact List.mem_cons_self j t)]
      rw [hej]
    · rw [if_neg hej]
      by_cases het : e.id ∈ t
      · rw [if_pos het, if_pos (List.mem_cons_of_mem j het)]
      · rw [if_neg het, if_neg (by simp [hej, het])]

theorem setBindingValue_spec (env : FmtEnv) (s : Store) (key : String) (v : JSValue)
    (b : Binding) (hb : alGet s.stateBindings key = some b) :
    setBindingValue env s key v =
      some { stateBindings := alSet s.stateBindings key { b with prev := b.value, value := v },
             doc := updateBoundElements env s.doc { b with prev := b.value, value := v },
             events := s.events ++ [(key, v, b.value)] } := by
  simp [setBindingValue, hb]

theorem alGet_alRemove_other {κ α : Type} [DecidableEq κ] (l : List (κ × α)) (k k2 : κ)
    (h : k2 ≠ k) : alGet (alRemove l k) k2 = alGet l k2 := by
  induction l with
  | nil => rfl
  | cons hd t ih =>
    obtain ⟨a, b⟩ := hd
    by_cases hk : a = k
    · subst hk
      have h2 : ¬ (a = k2) := fun h2 => h h2.symm
      simp [alRemove, alGet, h2, ih]
    · by_cases hk2 : a = k2
      · simp [alRemove, alGet, hk, hk2, h]
      · simp [alRemove, alGet, hk, hk2, ih]

/-- The functional updater of the counter scenario: `prev => prev + 1`. -/
def incJS : JSValue → JSValue :=
  fun v => match v with
  | .num n => .num (n + 1)
  | v2 => v2

/-- C3: `set` stores the immediately preceding value as `previous`, assigns
the new value, updates every bound element (and only those), and appends
one change event carrying the value and previous; in the counter scenario,
three functional-updater sets from 0 yield final value 3 and exactly the
three events (1,0), (2,1), (3,2). -/
theorem set_notify_counter :
    (∀ (env : FmtEnv) (s : Store) (key : String) (v : JSValue) (b : Binding),
      alGet s.stateBindings key = some b → b.elements.Nodup →
      ∃ s2, setBindingValue env s key v = some s2 ∧
        alGet s2.stateBindings key = some { b with prev := b.value, value := v } ∧
        s2.events = s.events ++ [(key, v, b.value)] ∧
        ∀ (i : Nat) (e : DocElem), s.doc.find? (fun x => x.id = i) = some e →
          s2.doc.find? (fun x => x.id = i) =
            some (if i ∈ b.elements then updateElement env e v (alGet b.formatters i) else e)) ∧
    (((setStateFn envEmpty (useState envEmpty emptyStore "counter" (.num 0)) "counter"
          incJS).bind
        (fun s1 => (setStateFn envEmpty s1 "counter" incJS).bind
          (fun s2 => setStateFn envEmpty s2 "counter" incJS))).map
      (fun s3 => (getState s3 "counter", s3.events))) =
      some (.num 3, [("counter", .num 1, .num 0), ("counter", .num 2, .num 1),
                     ("counter", .num 3, .num 2)]) := by
  constructor
  · intro env s key v b hb hnd
    refine ⟨_, setBindingValue_spec env s key v b hb, ?_, rfl, ?_⟩
    · exact alGet_alSet_same s.stateBindings key _
    · intro i e hfind
      show (updateBoundElements env s.doc { b with prev := b.value, value := v }).find?
        (fun x => x.id = i) = _
      rw [updateBoundElements, foldl_updDoc_eq_map env v b.formatters b.elements s.doc hnd]
      rw [find_map_id s.doc _
        (by intro e2; by_cases h : e2.id ∈ b.elements <;> simp [h, updateElement_id]) i]
      rw [hfind]
      have hei : e.id = i := by
        have := List.find?_some hfind
        simpa using this
      simp [hei]
  · decide

/-- A store with one binding for "counter" holding 0, bound to element 1. -/
def counterStore : Store :=
  ⟨[("counter", ⟨.num 0, .undefV, [1], []⟩)], [plainElem 1 "counter"], []⟩

/-- C3 witness: one concrete set on `counterStore`. -/
theorem set_notify_counter_witness :
    ∃ s2, setBindingValue envEmpty counterStore "counter" (.num 1) = some s2 ∧
      alGet s2.stateBindings "counter" = some ⟨.num 1, .num 0, [1], []⟩ ∧
      s2.events = [("counter", .num 1, .num 0)] ∧
      ∀ (i : Nat) (e : DocElem), counterStore.doc.find? (fun x => x.id = i) = some e →
        s2.doc.find? (fun x => x.id = i) =
          some (if i ∈ [1] then
            updateElement envEmpty e (.num 1) (alGet ([] : List (Nat × Nat)) i) else e) :=
  (set_notify_counter).1 envEmpty counterStore "counter" (.num 1) ⟨.num 0, .undefV, [1], []⟩
    (by decide) (by decide)

/-- C10: after the unbind closure for `(key, elId)` runs, a set on that key
no longer writes to that element (its document entry is unchanged), while
every other element still bound to the key is still updated. -/
theorem unbind_frame_effect :
    ∀ (env : FmtEnv) (s : Store) (key : String) (elId : Nat) (v : JSValue) (b : Binding),
      alGet s.stateBindings key = some b → b.elements.Nodup →
      ∃ s2, setBindingValue env (unbindState s key elId) key v = some s2 ∧
        (∀ e : DocElem, s.doc.find? (fun x => x.id = elId) = some e →
          s2.doc.find? (fun x => x.id = elId) = some e) ∧
        (∀ (i : Nat) (e : DocElem), i ≠ elId → i ∈ b.elements →
          s.doc.find? (fun x => x.id = i) = some e →
          s2.doc.find? (fun x => x.id = i) =
            some (updateElement env e v (alGet b.formatters i))) := by
  intro env s key elId v b hb hnd
  have hb2 : alGet (unbindState s key elId).stateBindings key =
      some { b with elements := b.elements.filter (fun e => e ≠ elId),
                    formatters := alRemove b.formatters elId } := by
    simp [unbindState, hb, alGet_alSet_same]
  have hdoc : (unbindState s key elId).doc = s.doc := by
    simp [unbindState, hb]
  refine ⟨_, setBindingValue_spec env (unbindState s key elId) key v _ hb2, ?_, ?_⟩
  · intro e hfind
    show (updateBoundElements env (unbindState s key elId).doc _).find? (fun x => x.id = elId)
      = some e
    rw [hdoc, updateBoundElements,
      foldl_updDoc_eq_map env v _ _ s.doc (List.Nodup.filter _ hnd)]
    rw [find_map_id s.doc _ (by intro e2; split <;> simp [updateElement_id]) elId]
    rw [hfind]
    have hei : e.id = elId := by
      have := List.find?_some hfind
      simpa using this
    have hnotin : e.id ∉ b.elements.filter (fun x => decide (x ≠ elId)) := by
      rw [hei]
      intro hmem
      have := List.of_mem_filter hmem
      simp at this
    rw [Option.map_some', if_neg hnotin]
  · intro i e hne hmem hfind
    show (updateBoundElements env (unbindState s key elId).doc _).find? (fun x => x.id = i)
      = _
    rw [hdoc, updateBoundElements,
      foldl_updDoc_eq_map env v _ _ s.doc (List.Nodup.filter _ hnd)]
    rw [find_map_id s.doc _ (by intro e2; split <;> simp [updateElement_id]) i]
    rw [hfind]
    have hei : e.id = i := by
      have := List.find?_some hfind
      simpa using this
    have hin : e.id ∈ b.elements.filter (fun x => decide (x ≠ elId)) := by
      rw [hei]
      exact List.mem_filter.mpr ⟨hmem, by simpa using hne⟩
    rw [Option.map_some', if_pos hin, hei, alGet_alRemove_other b.formatters elId i hne]

/-- A store with a binding for "k" holding 0, bound to elements 1 and 2. -/
def twoElemStore : Store :=
  ⟨[("k", ⟨.num 0, .undefV, [1, 2], []⟩)], [plainElem 1 "k", plainElem 2 "k"], []⟩

/-- C10 witness: unbinding element 2 of `twoElemStore` and setting 9 leaves
element 2 untouched while element 1 is still updated. -/
theorem unbind_frame_effect_witness :
    ∃ s2, setBindingValue envEmpty (unbindState twoElemStore "k" 2) "k" (.num 9) = some s2 ∧
      (∀ e : DocElem, twoElemStore.doc.find? (fun x => x.id = 2) = some e →
        s2.doc.find? (fun x => x.id = 2) = some e) ∧
      (∀ (i : Nat) (e : DocElem), i ≠ 2 → i ∈ [1, 2] →
        twoElemStore.doc.find? (fun x => x.id = i) = some e →
        s2.doc.find? (fun x => x.id = i) =
          some (updateElement envEmpty e (.num 9) (alGet ([] : List (Nat × Nat)) i))) :=
  unbind_frame_effect envEmpty twoElemStore "k" 2 (.num 9) ⟨.num 0, .undefV, [1, 2], []⟩
    (by decide) (by decide)

/-! ## Claim theorems: checkbox-group binding (C7) -/

/-- A checkbox carrying an explicit `value` attribute, bound to "tags". -/
def checkboxFixture (i : Nat) (v : String) : DocElem :=
  ⟨i, "INPUT", "checkbox", some "tags", none, true, v, false, false, 0, .str ""⟩

/-- Three checkboxes a/b/c sharing the "tags" key, all bound. -/
def tagsStore : Store :=
  ⟨[("tags", ⟨.strArr [], .undefV, [0, 1, 2], []⟩)],
   [checkboxFixture 0 "a", checkboxFixture 1 "b", checkboxFixture 2 "c"], []⟩

/-- The store after checking the first and third boxes and firing their
change events. -/
def tagsAfterCheck : Option Store :=
  (fireChange envEmpty (setChecked tagsStore 0 true) "tags" 0).bind
    (fun s2 => fireChange envEmpty (setChecked s2 2 true) "tags" 2)

/-- C7: with three checkboxes a/b/c sharing a key, checking the first and
third and firing their change events yields store value ["a","c"], and
unchecking both again yields []; a single checkbox without an explicit
`value` attribute instead binds `element.checked` as a boolean. -/
theorem checkbox_group_binding :
    (tagsAfterCheck.map (fun s => getState s "tags") = some (.strArr ["a", "c"])) ∧
    ((tagsAfterCheck.bind
        (fun s3 => (fireChange envEmpty (setChecked s3 0 false) "tags" 0).bind
          (fun s4 => fireChange envEmpty (setChecked s4 2 false) "tags" 2))).map
      (fun s => getState s "tags") = some (.strArr [])) ∧
    (∀ (doc : List DocElem) (key : String) (el : DocElem),
      el.typeAttr = "checkbox" → el.hasValueAttr = false →
      (checkboxesFor doc key).length ≤ 1 →
      changeHandlerValue doc key el = .boolV el.checked) := by
  refine ⟨by decide, by decide, ?_⟩
  intro doc key el hty hval hlen
  have h1 : (el.typeAttr == "checkbox") = true := by simp [hty]
  simp only [changeHandlerValue, h1, if_true]
  have h2 : (decide ((checkboxesFor doc key).length > 1) || el.hasValueAttr) = false := by
    rw [hval]
    simp
    omega
  rw [if_neg (by rw [h2]; exact Bool.false_ne_true)]

/-- A lone bare checkbox (no `value` attribute). -/
def bareBox : DocElem :=
  ⟨5, "INPUT", "checkbox", some "done", none, false, "on", true, false, 0, .str ""⟩

/-- C7 witness: the lone bare checkbox binds its checked flag. -/
theorem checkbox_group_binding_witness :
    changeHandlerValue [bareBox] "done" bareBox = .boolV true :=
  (checkbox_group_binding).2.2 [bareBox] "done" bareBox (by decide) (by decide) (by decide)

/-! ## Claim theorems: idempotent rebind (C8) -/

/-- The element set of the binding for `key` (empty when absent). -/
def bindingElements (s : Store) (key : String) : List Nat :=
  match alGet s.stateBindings key with
  | some b => b.elements
  | none => []

/-- The number of input/change listeners attached to element `i`. -/
def listenersAt (s : Store) (i : Nat) : Option Nat :=
  (s.doc.find? (fun e => e.id = i)).map DocElem.listeners

/-- Binding-layer operations: a document scan for a key, a `bindState`
call, or a first `useState` call. -/
inductive BindOp where
  | scanOp (key : String)
  | bindOp (key : String) (elId : Nat) (fmt : Option FmtArg)
  | stateOp (key : String) (initial : JSValue)

def applyOp (env : FmtEnv) (s : Store) : BindOp → Store
  | .scanOp key => scanForStateBindings env s key
  | .bindOp key elId fmt => bindState env s key elId fmt
  | .stateOp key initial => useState env s key initial

def applyOps (env : FmtEnv) (s : Store) (ops : List BindOp) : Store :=
  ops.foldl (applyOp env) s

/-- At most one input/change listener per element, and none before the
`__reactExpressBound` flag is set. -/
def listenerInv (s : Store) : Prop :=
  ∀ e ∈ s.doc, e.listeners ≤ 1 ∧ (e.bound = false → e.listeners = 0)

/-- DOM elements are distinct objects: their ids are unique. -/
def docIdsNodup (s : Store) : Prop := (s.doc.map DocElem.id).Nodup

theorem setAdd_nodup (l : List Nat) (e : Nat) (h : l.Nodup) : (setAdd l e).Nodup := by
  unfold setAdd
  by_cases hm : e ∈ l
  · simpa [hm]
  · simp only [hm, if_false]
    rw [List.nodup_append]
    exact ⟨h, List.nodup_singleton e, by
      intro a ha hb
      simp only [List.mem_singleton] at hb
      exact hm (hb ▸ ha)⟩

theorem mem_setAdd_self (l : List Nat) (e : Nat) : e ∈ setAdd l e := by
  unfold setAdd
  by_cases hm : e ∈ l
  · simp [hm]
  · simp [hm]

theorem setAdd_of_mem (l : List Nat) (e : Nat) (h : e ∈ l) : setAdd l e = l := by
  simp [setAdd, h]

/-- `bindState` sets the binding's element list to `Set.add` of the old
one, whatever else it does. -/
theorem bindState_elements (env : FmtEnv) (s : Store) (key : String) (elId : Nat)
    (f : Option FmtArg) :
    bindingElements (bindState env s key elId f) key = setAdd (bindingElements s key) elId := by
  cases h : alGet s.stateBindings key with
  | some b =>
    have hrhs : bindingElements s key = b.elements := by simp [bindingElements, h]
    rw [hrhs]
    cases f with
    | none =>
      simp only [bindState, h, Option.isSome_some, if_true]
      split <;> simp [bindingElements, alGet_alSet_same]
    | some fa =>
      cases hr : (resolveFormatter env fa).1 with
      | none =>
        simp only [bindState, h, Option.isSome_some, if_true, hr]
        split <;> simp [bindingElements, alGet_alSet_same]
      | some fid =>
        simp only [bindState, h, Option.isSome_some, if_true, hr]
        split <;> simp [bindingElements, alGet_alSet_same]
  | none =>
    have hrhs : bindingElements s key = [] := by simp [bindingElements, h]
    rw [hrhs]
    cases f with
    | none =>
      simp only [bindState, h, Option.isSome_none, Bool.false_eq_true, if_false,
        alGet_alSet_same]
      split <;> simp [bindingElements, alGet_alSet_same]
    | some fa =>
      cases hr : (resolveFormatter env fa).1 with
      | none =>
        simp only [bindState, h, Option.isSome_none, Bool.false_eq_true, if_false,
          alGet_alSet_same, hr]
        split <;> simp [bindingElements, alGet_alSet_same]
      | some fid =>
        simp only [bindState, h, Option.isSome_none, Bool.false_eq_true, if_false,
          alGet_alSet_same, hr]
        split <;> simp [bindingElements, alGet_alSet_same]

theorem find_eq_of_nodup (doc : List DocElem) (hnd : (doc.map DocElem.id).Nodup)
    (e : DocElem) (he : e ∈ doc) (i : Nat) (hei : e.id = i) :
    doc.find? (fun x => x.id = i) = some e := by
  induction doc with
  | nil => cases he
  | cons hd t ih =>
    simp only [List.map_cons, List.nodup_cons] at hnd
    rcases List.mem_cons.mp he with rfl | het
    · rw [List.find?_cons_of_pos _ (by simp [hei])]
    · have hhd : ¬ (hd.id = i) := by
        intro hh
        refine hnd.1 ?_
        rw [hh, ← hei]
        exact List.mem_map_of_mem DocElem.id het
      rw [List.find?_cons_of_neg _ (by simp [hhd])]
      exact ih hnd.2 het

theorem updDoc_ids (doc : List DocElem) (i : Nat) (g : DocElem → DocElem)
    (hg : ∀ e, (g e).id = e.id) :
    (updDocElem doc i g).map DocElem.id = doc.map DocElem.id := by
  unfold updDocElem
  rw [List.map_map]
  apply List.map_congr_left
  intro e _
  simp only [Function.comp_apply]
  split
  · exact hg e
  · rfl

/-- The per-element shape of the document after `scanOne`: either untouched
or a single listener attach to the not-yet-bound matched element. -/
theorem scanOne_doc (env : FmtEnv) (key : String) (st : Store) (i : Nat) :
    (scanOne env key st i).doc = st.doc ∨
    (∃ el, st.doc.find? (fun e => e.id = i) = some el ∧ el.bound = false ∧
      (scanOne env key st i).doc =
        updDocElem st.doc i (fun e => { e with listeners := e.listeners + 1, bound := true })) := by
  unfold scanOne
  split
  · next b el hb hel =>
    by_cases hmem : i ∈ b.elements
    · left; simp [hmem]
    · simp only [hmem, if_false]
      by_cases hbound : el.bound = true
      · left; simp [hbound]
      · by_cases htag : (el.tagName == "INPUT" || el.tagName == "TEXTAREA"
            || el.tagName == "SELECT") = true
        · right
          refine ⟨el, hel, by simpa using hbound, ?_⟩
          simp [hbound, htag]
        · left; simp [hbound, htag]
  · left; rfl

theorem scanOne_inv (env : FmtEnv) (key : String) (st : Store) (i : Nat)
    (hnd : docIdsNodup st) (hinv : listenerInv st) :
    listenerInv (scanOne env key st i) ∧ docIdsNodup (scanOne env key st i) := by
  rcases scanOne_doc env key st i with hdoc | ⟨el, hel, hbound, hdoc⟩
  · constructor
    · intro e he; exact hinv e (by rw [hdoc] at he; exact he)
    · unfold docIdsNodup; rw [hdoc]; exact hnd
  · constructor
    · intro e2 he2
      rw [hdoc] at he2
      unfold updDocElem at he2
      rcases List.mem_map.mp he2 with ⟨e0, he0, rfl⟩
      by_cases hid : e0.id = i
      · have hfind := find_eq_of_nodup st.doc hnd e0 he0 i hid
        rw [hel] at hfind
        injection hfind with heq
        have h0 := hinv e0 he0
        have hz : e0.listeners = 0 := h0.2 (by rw [← heq]; exact hbound)
        simp [hid, hz]
      · simp only [hid, if_false]
        exact hinv e0 he0
    · unfold docIdsNodup
      rw [hdoc, updDoc_ids]
      · exact hnd
      · intro e; rfl

theorem scan_fold_inv (env : FmtEnv) (key : String) :
    ∀ (ids : List Nat) (st : Store), docIdsNodup st → listenerInv st →
      listenerInv (ids.foldl (scanOne env key) st) ∧
      docIdsNodup (ids.foldl (scanOne env key) st) := by
  intro ids
  induction ids with
  | nil => intro st hnd hinv; exact ⟨hinv, hnd⟩
  | cons j t ih =>
    intro st hnd hinv
    have h1 := scanOne_inv env key st j hnd hinv
    exact ih (scanOne env key st j) h1.2 h1.1

theorem scanForStateBindings_inv (env : FmtEnv) (s : Store) (key : String)
    (hnd : docIdsNodup s) (hinv : listenerInv s) :
    listenerInv (scanForStateBindings env s key) ∧
    docIdsNodup (scanForStateBindings env s key) :=
  scan_fold_inv env key _ s hnd hinv

/-- The document after `bindState`: untouched, or a single immediate
`_updateElement` write to the newly bound element. -/
theorem bindState_doc (env : FmtEnv) (s : Store) (key : String) (elId : Nat)
    (f : Option FmtArg) :
    (bindState env s key elId f).doc = s.doc ∨
    ∃ v fmt, (bindState env s key elId f).doc =
      updDocElem s.doc elId (fun e => updateElement env e v fmt) := by
  cases h : alGet s.stateBindings key with
  | some b =>
    cases f with
    | none =>
      simp only [bindState, h, Option.isSome_some, if_true]
      split
      · right; exact ⟨_, _, rfl⟩
      · left; rfl
    | some fa =>
      cases hr : (resolveFormatter env fa).1 with
      | none =>
        simp only [bindState, h, Option.isSome_some, if_true, hr]
        split
        · right; exact ⟨_, _, rfl⟩
        · left; rfl
      | some fid =>
        simp only [bindState, h, Option.isSome_some, if_true, hr]
        split
        · right; exact ⟨_, _, rfl⟩
        · left; rfl
  | none =>
    cases f with
    | none =>
      simp only [bindState, h, Option.isSome_none, Bool.false_eq_true, if_false,
        alGet_alSet_same]
      split
      · right; exact ⟨_, _, rfl⟩
      · left; rfl
    | some fa =>
      cases hr : (resolveFormatter env fa).1 with
      | none =>
        simp only [bindState, h, Option.isSome_none, Bool.false_eq_true, if_false,
          alGet_alSet_same, hr]
        split
        · right; exact ⟨_, _, rfl⟩
        · left; rfl
      | some fid =>
        simp only [bindState, h, Option.isSome_none, Bool.false_eq_true, if_false,
          alGet_alSet_same, hr]
        split
        · right; exact ⟨_, _, rfl⟩
        · left; rfl

/-- `bindState` never attaches input listeners: every element keeps its
listener count. -/
theorem bindState_listeners (env : FmtEnv) (s : Store) (key : String) (elId : Nat)
    (f : Option FmtArg) (i : Nat) :
    listenersAt (bindState env s key elId f) i = listenersAt s i := by
  rcases bindState_doc env s key elId f with hdoc | ⟨v, fmt, hdoc⟩
  · unfold listenersAt; rw [hdoc]
  · unfold listenersAt
    rw [hdoc, updDocElem,
      find_map_id s.doc _ (by intro e; split <;> simp [updateElement_id]) i]
    cases s.doc.find? (fun e => e.id = i) with
    | none => rfl
    | some e =>
      simp only [Option.map_some']
      congr 1
      split
      · exact updateElement_listeners env e v fmt
      · rfl

theorem bindState_inv (env : FmtEnv) (s : Store) (key : String) (elId : Nat)
    (f : Option FmtArg) (hnd : docIdsNodup s) (hinv : listenerInv s) :
    listenerInv (bindState env s key elId f) ∧ docIdsNodup (bindState env s key elId f) := by
  rcases bindState_doc env s key elId f with hdoc | ⟨v, fmt, hdoc⟩
  · exact ⟨fun e he => hinv e (by rw [hdoc] at he; exact he),
      by unfold docIdsNodup; rw [hdoc]; exact hnd⟩
  · constructor
    · intro e2 he2
      rw [hdoc] at he2
      unfold updDocElem at he2
      rcases List.mem_map.mp he2 with ⟨e0, he0, rfl⟩
      have h0 := hinv e0 he0
      split
      · simpa [updateElement_listeners, updateElement_bound] using h0
      · exact h0
    · unfold docIdsNodup
      rw [hdoc, updDoc_ids]
      · exact hnd
      · intro e; exact updateElement_id env e v fmt

theorem useState_inv (env : FmtEnv) (s : Store) (key : String) (initial : JSValue)
    (hnd : docIdsNodup s) (hinv : listenerInv s) :
    listenerInv (useState env s key initial) ∧ docIdsNodup (useState env s key initial) := by
  unfold useState
  split
  · exact ⟨hinv, hnd⟩
  · exact scanForStateBindings_inv env _ key hnd hinv

theorem applyOps_inv (env : FmtEnv) :
    ∀ (ops : List BindOp) (s : Store), docIdsNodup s → listenerInv s →
      listenerInv (applyOps env s ops) ∧ docIdsNodup (applyOps env s ops) := by
  intro ops
  induction ops with
  | nil => intro s hnd hinv; exact ⟨hinv, hnd⟩
  | cons op t ih =>
    intro s hnd hinv
    have h1 : listenerInv (applyOp env s op) ∧ docIdsNodup (applyOp env s op) := by
      cases op with
      | scanOp key => exact scanForStateBindings_inv env s key hnd hinv
      | bindOp key elId fmt => exact bindState_inv env s key elId fmt hnd hinv
      | stateOp key initial => exact useState_inv env s key initial hnd hinv
    exact ih (applyOp env s op) h1.2 h1.1

/-- C8: rebinding the same (key, element) pair is idempotent — after two
`bindState` calls the element set equals the one-call set and the element
occurs exactly once in it; `bindState` itself attaches no input listeners
at all; and across any sequence of scans, binds and `useState` calls every
element carries at most one input/change listener. -/
theorem bindState_idempotent :
    ∀ (env : FmtEnv) (s : Store) (key : String) (elId : Nat) (f : Option FmtArg),
      ((bindingElements s key).Nodup →
        bindingElements (bindState env (bindState env s key elId f) key elId f) key =
          bindingElements (bindState env s key elId f) key ∧
        (bindingElements (bindState env (bindState env s key elId f) key elId f) key).count
          elId = 1) ∧
      (∀ i : Nat, listenersAt (bindState env s key elId f) i = listenersAt s i) ∧
      (docIdsNodup s → listenerInv s → ∀ ops : List BindOp,
        listenerInv (applyOps env s ops)) := by
  intro env s key elId f
  refine ⟨?_, fun i => bindState_listeners env s key elId f i,
    fun hnd hinv ops => (applyOps_inv env ops s hnd hinv).1⟩
  intro hnd0
  have h1 := bindState_elements env s key elId f
  have h2 := bindState_elements env (bindState env s key elId f) key elId f
  rw [h1] at h2
  constructor
  · rw [h2, h1, setAdd_of_mem _ _ (mem_setAdd_self _ _)]
  · rw [h2, setAdd_of_mem _ _ (mem_setAdd_self _ _)]
    exact List.count_eq_one_of_mem (setAdd_nodup _ _ hnd0) (mem_setAdd_self _ _)

/-- C8 witness: rebinding element 3 twice on an empty store yields a
single occurrence, and a scan sequence keeps the listener invariant. -/
theorem bindState_idempotent_witness :
    (bindingElements (bindState envEmpty (bindState envEmpty emptyStore "k" 3 none) "k" 3 none)
      "k").count 3 = 1 ∧
    listenerInv (applyOps envEmpty emptyStore [BindOp.scanOp "k"]) :=
  ⟨((bindState_idempotent envEmpty emptyStore "k" 3 none).1 (by decide)).2,
   (bindState_idempotent envEmpty emptyStore "k" 3 none).2.2
     (by simp [docIdsNodup, emptyStore])
     (by intro e he; simp [emptyStore] at he) [BindOp.scanOp "k"]⟩

/-! ## Claim theorems: render batching (C4) -/

theorem render_async_sched (s : BatchState) (c : Nat) (v : VNode) (hs : s.scheduled = true) :
    render s c v false = ({ s with queue := alSet s.queue c v }, []) := by
  unfold render
  simp [hs]

theorem runTurn_async_fold :
    ∀ (calls : List (Nat × VNode)) (s : BatchState) (acc : List (Nat × VNode)),
      s.scheduled = true →
      (calls.map (fun cv => (cv.1, cv.2, false))).foldl
        (fun (a : BatchState × List (Nat × VNode)) call =>
          ((render a.1 call.1 call.2.1 call.2.2).1,
           a.2 ++ (render a.1 call.1 call.2.1 call.2.2).2)) (s, acc) =
      ({ s with queue := calls.foldl (fun q cv => alSet q cv.1 cv.2) s.queue }, acc) := by
  intro calls
  induction calls with
  | nil => intro s acc hs; rfl
  | cons cv t ih =>
    intro s acc hs
    simp only [List.map_cons, List.foldl_cons]
    rw [render_async_sched s cv.1 cv.2 hs]
    simp only [List.append_nil]
    exact ih _ acc hs

theorem runTurn_async_commits (calls : List (Nat × VNode)) :
    (runTurn (calls.map (fun cv => (cv.1, cv.2, false))) initialBatch).2 =
      calls.foldl (fun q cv => alSet q cv.1 cv.2) [] := by
  cases calls with
  | nil => rfl
  | cons c0 rest =>
    unfold runTurn
    simp only [List.map_cons, List.foldl_cons]
    rw [show render initialBatch c0.1 c0.2 false =
      (⟨alSet [] c0.1 c0.2, true, 1⟩, []) from rfl]
    simp only [List.nil_append]
    rw [runTurn_async_fold rest ⟨alSet [] c0.1 c0.2, true, 1⟩ [] rfl]
    have hne : rest.foldl (fun q cv => alSet q cv.1 cv.2) (alSet [] c0.1 c0.2) ≠ [] :=
      foldl_alSet_ne_nil rest _ (alSet_ne_nil _ _ _)
    simp only [runFlushes, flushRun]
    rw [if_neg (by simpa [List.isEmpty_iff] using hne)]
    simp

theorem alGet_fold_lastQueued (calls : List (Nat × VNode)) (c : Nat) :
    alGet (calls.foldl (fun q cv => alSet q cv.1 cv.2) []) c = lastQueued calls c := by
  rw [alGet_foldl_alSet]
  unfold lastQueued
  cases h : ((calls.filter (fun cv => cv.1 = c)).map Prod.snd).getLast? <;> simp [h, alGet]

/-- C4: all renders queued (without `sync`) in one microtask turn collapse:
the flush commits each container exactly once (no duplicate containers in
the commit list), with exactly the last vnode queued for it; and
`options.sync` forces the queued vnode to be committed synchronously
inside the `render` call itself, while a non-sync render commits nothing
synchronously. -/
theorem render_batching :
    (∀ calls : List (Nat × VNode),
      (((runTurn (calls.map (fun cv => (cv.1, cv.2, false))) initialBatch).2.map
          Prod.fst).Nodup) ∧
      ∀ c : Nat,
        alGet (runTurn (calls.map (fun cv => (cv.1, cv.2, false))) initialBatch).2 c =
          lastQueued calls c) ∧
    (∀ (s : BatchState) (c : Nat) (v : VNode),
      alGet (render s c v true).2 c = some v ∧
      (render s c v false).2 = []) := by
  constructor
  · intro calls
    rw [runTurn_async_commits]
    constructor
    · exact keysNodup_foldl_alSet calls [] (by simp)
    · intro c
      exact alGet_fold_lastQueued calls c
  · intro s c v
    constructor
    · unfold render flushRun
      rw [if_pos rfl]
      rw [if_neg (by simpa [List.isEmpty_iff] using alSet_ne_nil s.queue c v)]
      exact alGet_alSet_same s.queue c v
    · unfold render
      rw [if_neg (by simp)]
      split <;> rfl
